import Mathlib

/-!
# Verification of the student record tracker

Shallow embedding of the record-management core shared by the two source
files (`98P_C78_PY.py`, `PY_C78_Cap_final.py`): the `Student` data model
with its derived metrics, the list-based store operations
(add-or-update, delete, search, topper), and the CSV save/load codec.

Modelling conventions:
* Python `int` values are `Int`; `float` averages are modelled as exact
  rationals.  `round(x, 2)` is modelled as `round2` (round to the nearest
  hundredth, halves up).  Python rounds halves to even, but for averages
  of three integer marks the scaled value `100 * total / 3` has fractional
  part 0, 1/3 or 2/3, so no tie is ever reachable and the two rules agree
  on every value this program computes.
* The codec is modelled down to the written text.  The row logic
  (`save_to_csv`/`load_from_csv`) works on record lists,
  `List (List String)`; around it, `csvWrite` is `csv.writer` (minimal
  quoting, `\r\n` row terminators, written verbatim because the file is
  opened with `newline=""`), `pyUnivNewlines` is the universal-newline
  translation performed when `load_from_csv` reopens the file without
  `newline=""`, and `csvScan` is `csv.reader` over the translated
  stream.  `save_to_csv_text` and `load_from_csv_text` compose these
  layers exactly as the program does.
* Python `str.strip`/`str.lower`/`in` and `int(...)` are modelled over
  `List Char` (`pyStrip`, `pyLower`, `strContains`, `parseInt?`) at the
  ASCII level used by the program's data.
-/

set_option maxRecDepth 4000

deriving instance DecidableEq for Except

/-- The `Student` dataclass: `roll`, `name`, and the list of marks. -/
structure Student where
  roll : String
  name : String
  marks : List Int
deriving DecidableEq, Repr

/-- `round(x, 2)`: round to two decimal places (see the header note on
tie-breaking, which is unreachable here). -/
def round2 (x : ℚ) : ℚ := ((x * 100 + 1 / 2).floor : ℚ) / 100

/-- `Student.total`: `sum(self.marks)`. -/
def Student.total (s : Student) : Int := s.marks.sum

/-- `Student.average`: `round(self.total() / len(self.marks), 2) if self.marks else 0.0`. -/
def Student.average (s : Student) : ℚ :=
  if s.marks = [] then 0
  else round2 ((s.total : ℚ) / (s.marks.length : ℚ))

/-- The grade banding applied to the computed average (the body of
`Student.grade` after `avg = self.average()`). -/
def gradeOfAvg (avg : ℚ) : String :=
  if avg ≥ 90 then "A+"
  else if avg ≥ 80 then "A"
  else if avg ≥ 70 then "B"
  else if avg ≥ 60 then "C"
  else if avg ≥ 50 then "D"
  else "F"

/-- `Student.grade`: band the average. -/
def Student.grade (s : Student) : String := gradeOfAvg s.average

/-- Python `str.strip()`: drop leading and trailing whitespace (the
program's data is ASCII; Unicode-only whitespace is not modelled). -/
def pyStrip (s : String) : String :=
  ⟨((s.data.dropWhile Char.isWhitespace).reverse.dropWhile Char.isWhitespace).reverse⟩

/-- Python `str.lower()` at the ASCII level. -/
def pyLower (s : String) : String := ⟨s.data.map Char.toLower⟩

/-- Python `needle in hay` on strings: substring containment. -/
def strContains (hay needle : String) : Bool := decide (needle.data <:+: hay.data)

/-- Decimal value of an ASCII digit. -/
def digitVal (c : Char) : Nat := c.toNat - 48

/-- Digit run of a Python integer literal after its first digit: digits,
with single underscores allowed between digits. -/
def parseDigits : List Char → Nat → Option Nat
  | [], acc => some acc
  | c :: cs, acc =>
    if c.isDigit then parseDigits cs (acc * 10 + digitVal c)
    else if c = '_' then
      match cs with
      | [] => none
      | c2 :: cs2 => if c2.isDigit then parseDigits cs2 (acc * 10 + digitVal c2) else none
    else none

/-- Python `int(s)` for decimal strings: strip whitespace, optional sign,
then a digit run; `none` models the `ValueError`. -/
def parseInt? (s : String) : Option Int :=
  let core : List Char → Option Nat := fun l =>
    match l with
    | [] => none
    | d :: ds => if d.isDigit then parseDigits ds (digitVal d) else none
  match (pyStrip s).data with
  | [] => none
  | c :: cs =>
    if c = '-' then (core cs).map (fun n => -(n : Int))
    else if c = '+' then (core cs).map (fun n => (n : Int))
    else (core (c :: cs)).map (fun n => (n : Int))

/-- `_find_student_index_by_roll` / `find_index`: index of the first
stored record whose `roll` equals the given one. -/
def findIndexByRoll : List Student → String → Option Nat
  | [], _ => none
  | st :: rest, roll =>
    if st.roll = roll then some 0
    else (findIndexByRoll rest roll).map (· + 1)

/-- In-place field assignment `students[idx].name = name;
students[idx].marks = marks` (the `roll` field is untouched). -/
def updateAt : List Student → Nat → String → List Int → List Student
  | [], _, _, _ => []
  | st :: rest, 0, name, marks => { st with name := name, marks := marks } :: rest
  | st :: rest, n + 1, name, marks => st :: updateAt rest n name marks

/-- `del students[idx]`. -/
def removeAt : List Student → Nat → List Student
  | [], _ => []
  | _ :: rest, 0 => rest
  | st :: rest, n + 1 => st :: removeAt rest n

/-- `ConsoleTracker.add_or_update`: range-check the marks, then update the
first record with the given roll in place, or append a new one.  The
returned string is the printed outcome message. -/
def add_or_update (students : List Student) (roll name : String)
    (m1 m2 m3 : Int) : Except String (List Student × String) :=
  if m1 < 0 ∨ 100 < m1 then Except.error "Marks must be 0–100"
  else if m2 < 0 ∨ 100 < m2 then Except.error "Marks must be 0–100"
  else if m3 < 0 ∨ 100 < m3 then Except.error "Marks must be 0–100"
  else
    match findIndexByRoll students roll with
    | none => Except.ok (students ++ [⟨roll, name, [m1, m2, m3]⟩], "Added.")
    | some idx => Except.ok (updateAt students idx name [m1, m2, m3], "Updated.")

/-- `ConsoleTracker.delete`: remove the record with the given roll;
leave the store as is when the roll is absent. -/
def deleteByRoll (students : List Student) (roll : String) : List Student :=
  match findIndexByRoll students roll with
  | none => students
  | some idx => removeAt students idx

/-- Result of a search, distinguishing "no query provided" from a
(possibly empty) hit list. -/
inductive SearchResult where
  | noQuery
  | hits (found : List Student)
deriving DecidableEq, Repr

/-- `search_student`: empty query signals the no-query condition;
otherwise case-insensitive substring match of the query against each
record's roll and name, keeping store order. -/
def search (students : List Student) (query : String) : SearchResult :=
  if query = "" then SearchResult.noQuery
  else
    let q := pyLower query
    SearchResult.hits (students.filter fun st =>
      strContains (pyLower st.roll) q || strContains (pyLower st.name) q)

/-- The fold inside `max(..., key=lambda s: s.average())`: CPython's
`max` replaces the current best only on a strictly greater key. -/
def pickTopper (s : Student) (rest : List Student) : Student :=
  rest.foldl (fun best st => if best.average < st.average then st else best) s

/-- `ConsoleTracker.topper` / `show_topper`: `none` models the
"No records." branch. -/
def topper (students : List Student) : Option Student :=
  match students with
  | [] => none
  | s :: rest => some (pickTopper s rest)

/-- Render the rounded average the way `csv.writer` receives it
(`str` of the rounded float: integer part, then the fractional digits
with trailing zeros trimmed, at least one digit). -/
def formatAvg (q : ℚ) : String :=
  let z : Int := q.num * 100 / (q.den : Int)
  let ip : Int := z / 100
  let frac : Int := z % 100
  if frac = 0 then toString ip ++ ".0"
  else if frac % 10 = 0 then toString ip ++ "." ++ toString (frac / 10)
  else if frac < 10 then toString ip ++ ".0" ++ toString frac
  else toString ip ++ "." ++ toString frac

/-- The CSV record written for one student by `save_to_csv`. -/
def rowOf (st : Student) : List String :=
  [st.roll, st.name,
   toString (st.marks.getD 0 0), toString (st.marks.getD 1 0), toString (st.marks.getD 2 0),
   toString st.total, formatAvg st.average, st.grade]

/-- The CSV header row written by `save_to_csv`. -/
def csvHeader : List String :=
  ["roll", "name", "marks1", "marks2", "marks3", "total", "average", "grade"]

/-- `save_to_csv`: refuses to write an empty store, otherwise produces
the header record followed by one record per student in store order
(a CSV text is modelled by its list of records, see the header note). -/
def save_to_csv (students : List Student) : Option (List (List String)) :=
  if students = [] then none
  else some (csvHeader :: students.map rowOf)

/-- The typed errors raised by `load_from_csv` (each constructor is one
of its distinct `ValueError` messages). -/
inductive LoadError where
  | badHeader
  | malformedRow (i : Nat) (row : List String)
  | marksNotInt (i : Nat)
  | marksOutOfRange (i : Nat)
deriving DecidableEq, Repr

/-- The body of `load_from_csv`'s row loop for the row numbered `i`
(1-based, counting the header as row 1). -/
def parseRow (i : Nat) (row : List String) : Except LoadError Student :=
  if row.length < 8 then Except.error (LoadError.malformedRow i row)
  else
    let roll := pyStrip (row.getD 0 "")
    let name := pyStrip (row.getD 1 "")
    match parseInt? (row.getD 2 ""), parseInt? (row.getD 3 ""), parseInt? (row.getD 4 "") with
    | some m1, some m2, some m3 =>
      if m1 < 0 ∨ 100 < m1 then Except.error (LoadError.marksOutOfRange i)
      else if m2 < 0 ∨ 100 < m2 then Except.error (LoadError.marksOutOfRange i)
      else if m3 < 0 ∨ 100 < m3 then Except.error (LoadError.marksOutOfRange i)
      else Except.ok ⟨roll, name, [m1, m2, m3]⟩
    | _, _, _ => Except.error (LoadError.marksNotInt i)

/-- `load_from_csv`'s loop `for i, row in enumerate(reader, start=2)`,
accumulating `loaded` and aborting on the first failing row. -/
def loadRows : List (List String) → Nat → Except LoadError (List Student)
  | [], _ => Except.ok []
  | row :: rest, i =>
    match parseRow i row with
    | Except.error e => Except.error e
    | Except.ok st =>
      match loadRows rest (i + 1) with
      | Except.error e => Except.error e
      | Except.ok l => Except.ok (st :: l)

/-- `load_from_csv`: consume the header record (must have at least 8
columns), then parse every data row; any failure aborts the whole of
the import. -/
def load_from_csv (rows : List (List String)) : Except LoadError (List Student) :=
  match rows with
  | [] => Except.error LoadError.badHeader
  | header :: data =>
    if header.length < 8 then Except.error LoadError.badHeader
    else loadRows data 2

/-- The caller side of `load_from_csv`: `self.students = loaded` runs
only after the whole file parsed; the surrounding `try/except` shows the
error and leaves the store as it was. -/
def load_from_csv_app (students : List Student) (rows : List (List String)) : List Student :=
  match load_from_csv rows with
  | Except.ok loaded => loaded
  | Except.error _ => students

/-- `csv.writer` quoting test (QUOTE_MINIMAL): a field is quoted when it
contains the delimiter, the quote character, or a line-terminator
character. -/
def needsQuote (s : String) : Bool :=
  s.data.any fun c => c == ',' || c == '"' || c == '\r' || c == '\n'

/-- `csv.writer` quote escaping: double every quote character. -/
def escapeQuotes : List Char → List Char
  | [] => []
  | c :: rest => if c = '"' then '"' :: '"' :: escapeQuotes rest else c :: escapeQuotes rest

/-- One field as `csv.writer` emits it. -/
def csvQuoteField (s : String) : List Char :=
  if needsQuote s then '"' :: (escapeQuotes s.data ++ ['"']) else s.data

/-- A record's fields joined by the delimiter. -/
def csvFields : List String → List Char
  | [] => []
  | f :: rest =>
    match rest with
    | [] => csvQuoteField f
    | _ :: _ => csvQuoteField f ++ ',' :: csvFields rest

/-- `csv.writer` output for a record list: each record is terminated by
the default `\r\n`, written verbatim because `save_to_csv` opens the
file with `newline=""`. -/
def csvWrite (rows : List (List String)) : String :=
  ⟨(rows.map fun row => csvFields row ++ ['\r', '\n']).flatten⟩

/-- The whole of `save_to_csv` down to the written text. -/
def save_to_csv_text (students : List Student) : Option String :=
  (save_to_csv students).map csvWrite

/-- First half of universal-newline translation: `\r\n` becomes `\n`,
scanning left to right. -/
def stripCRLF : List Char → List Char
  | [] => []
  | [c] => [c]
  | c :: c2 :: rest =>
    if c = '\r' ∧ c2 = '\n' then '\n' :: stripCRLF rest
    else c :: stripCRLF (c2 :: rest)

/-- Second half of universal-newline translation: remaining lone `\r`
become `\n`. -/
def crToLF (cs : List Char) : List Char :=
  cs.map fun c => if c = '\r' then '\n' else c

/-- Universal-newline translation applied by `load_from_csv`'s
`open(path, "r")` (no `newline=""`): `\r\n` and lone `\r` both arrive
as `\n`. -/
def pyUnivNewlines (cs : List Char) : List Char := crToLF (stripCRLF cs)

/-- `csv.reader` scanning state: at a row start, at a field start within
a row, inside an unquoted field, or inside a quoted field. -/
inductive CsvState where
  | rowStart
  | fieldStart (row : List String)
  | unquoted (row : List String) (field : List Char)
  | quoted (row : List String) (field : List Char)

/-- `csv.reader` over the translated character stream: blank line gives
an empty record; a field starting with a quote runs to the closing
quote (doubled quotes are literal, embedded newlines are kept); any
other field runs to the next delimiter or line end. -/
def csvScan : CsvState → List Char → List (List String)
  | CsvState.rowStart, [] => []
  | CsvState.rowStart, c :: rest =>
    if c = '\n' then [] :: csvScan CsvState.rowStart rest
    else if c = '"' then csvScan (CsvState.quoted [] []) rest
    else if c = ',' then csvScan (CsvState.fieldStart [""]) rest
    else csvScan (CsvState.unquoted [] [c]) rest
  | CsvState.fieldStart row, [] => [row ++ [""]]
  | CsvState.fieldStart row, c :: rest =>
    if c = '\n' then (row ++ [""]) :: csvScan CsvState.rowStart rest
    else if c = '"' then csvScan (CsvState.quoted row []) rest
    else if c = ',' then csvScan (CsvState.fieldStart (row ++ [""])) rest
    else csvScan (CsvState.unquoted row [c]) rest
  | CsvState.unquoted row field, [] => [row ++ [⟨field⟩]]
  | CsvState.unquoted row field, c :: rest =>
    if c = '\n' then (row ++ [⟨field⟩]) :: csvScan CsvState.rowStart rest
    else if c = ',' then csvScan (CsvState.fieldStart (row ++ [⟨field⟩])) rest
    else csvScan (CsvState.unquoted row (field ++ [c])) rest
  | CsvState.quoted row field, [] => [row ++ [⟨field⟩]]
  | CsvState.quoted row field, c :: rest =>
    if c = '"' then
      match rest with
      | [] => [row ++ [⟨field⟩]]
      | c2 :: rest2 =>
        if c2 = '"' then csvScan (CsvState.quoted row (field ++ ['"'])) rest2
        else if c2 = ',' then csvScan (CsvState.fieldStart (row ++ [⟨field⟩])) rest2
        else if c2 = '\n' then (row ++ [⟨field⟩]) :: csvScan CsvState.rowStart rest2
        else csvScan (CsvState.unquoted row (field ++ [c2])) rest2
    else csvScan (CsvState.quoted row (field ++ [c])) rest

/-- `csv.reader` on a translated text. -/
def csvParse (s : String) : List (List String) := csvScan CsvState.rowStart s.data

/-- The whole of `load_from_csv` from the on-disk text: universal-newline
translation, then `csv.reader`, then the row loop. -/
def load_from_csv_text (text : String) : Except LoadError (List Student) :=
  load_from_csv (csvParse ⟨pyUnivNewlines text.data⟩)

/-- No carriage return among a string's characters. -/
def NoCR (s : String) : Prop := ∀ c ∈ s.data, c ≠ '\r'

instance : DecidablePred NoCR := fun s => by
  unfold NoCR
  infer_instance

/-- The store-mutating command surface reachable from the UI loop. -/
inductive Op where
  | upsert (roll name : String) (m1 m2 m3 : Int)
  | delete (roll : String)
  | reset
  | load (rows : List (List String))

/-- One command against the live store: failed validation or a failing
load leaves the store untouched (`reset` is `self.students.clear()`). -/
def applyOp (students : List Student) : Op → List Student
  | Op.upsert roll name m1 m2 m3 =>
    match add_or_update students roll name m1 m2 m3 with
    | Except.ok (l, _) => l
    | Except.error _ => students
  | Op.delete roll => deleteByRoll students roll
  | Op.reset => []
  | Op.load rows => load_from_csv_app students rows

/-- The rolls of a store, in iteration order. -/
def rolls (students : List Student) : List String := students.map Student.roll

/-- The validity invariants of C1: non-empty roll and name carrying no
surrounding whitespace, and exactly three marks, each in [0, 100]. -/
def ValidRecord (st : Student) : Prop :=
  st.roll ≠ "" ∧ pyStrip st.roll = st.roll ∧
  st.name ≠ "" ∧ pyStrip st.name = st.name ∧
  st.marks.length = 3 ∧ ∀ m ∈ st.marks, 0 ≤ m ∧ m ≤ 100

instance : DecidablePred ValidRecord := fun st => by
  unfold ValidRecord
  infer_instance

/-- Row validity, independent of the row number: at least 8 columns,
integer marks in columns 3–5, each within [0, 100]. -/
def rowOk (row : List String) : Bool :=
  decide (¬ row.length < 8) &&
  match parseInt? (row.getD 2 ""), parseInt? (row.getD 3 ""), parseInt? (row.getD 4 "") with
  | some m1, some m2, some m3 =>
    decide (¬(m1 < 0 ∨ 100 < m1)) && decide (¬(m2 < 0 ∨ 100 < m2)) &&
    decide (¬(m3 < 0 ∨ 100 < m3))
  | _, _, _ => false

/-- Side condition for the amended roll-uniqueness invariant: an import
may only bring in records with pairwise-distinct rolls. -/
def opKeepsUniqueRolls : Op → Prop
  | Op.load rows => ∀ l, load_from_csv rows = Except.ok l → (rolls l).Nodup
  | _ => True

/-! ## Helper lemmas -/

theorem gradeOfAvg_spec (a : ℚ) :
    (gradeOfAvg a = "A+" ↔ 90 ≤ a)
    ∧ (gradeOfAvg a = "A" ↔ 80 ≤ a ∧ a < 90)
    ∧ (gradeOfAvg a = "B" ↔ 70 ≤ a ∧ a < 80)
    ∧ (gradeOfAvg a = "C" ↔ 60 ≤ a ∧ a < 70)
    ∧ (gradeOfAvg a = "D" ↔ 50 ≤ a ∧ a < 60)
    ∧ (gradeOfAvg a = "F" ↔ a < 50) := by
  unfold gradeOfAvg
  split_ifs with h1 h2 h3 h4 h5 <;>
    refine ⟨?_, ?_, ?_, ?_, ?_, ?_⟩ <;>
    constructor <;>
    intro h <;>
    simp_all <;>
    linarith

theorem le_round2_div3 (t k : ℤ) : (k : ℚ) ≤ round2 ((t : ℚ) / 3) ↔ 3 * k ≤ t := by
  unfold round2
  rw [le_div_iff₀ (by norm_num : (0:ℚ) < 100)]
  have h1 : ((k : ℚ) * 100) = ((k * 100 : ℤ) : ℚ) := by push_cast; ring
  rw [h1, Int.cast_le, Rat.le_floor]
  constructor
  · intro h
    have h6 : (600 * k : ℚ) ≤ 200 * t + 3 := by push_cast at h ⊢; linarith
    have h7 : (600 * k : ℤ) ≤ 200 * t + 3 := by exact_mod_cast h6
    omega
  · intro h
    have h7 : (600 * k : ℤ) ≤ 200 * t := by omega
    have h6 : (600 * k : ℚ) ≤ 200 * t := by exact_mod_cast h7
    push_cast
    linarith

theorem average_of_three (s : Student) (h : s.marks.length = 3) :
    s.average = round2 ((s.total : ℚ) / 3) := by
  unfold Student.average
  have hne : s.marks ≠ [] := by
    intro he
    rw [he] at h
    simp at h
  rw [if_neg hne, h]
  norm_num

theorem parseInt_toString_nat :
    ∀ n : Nat, n < 101 → parseInt? (toString ((n : Int))) = some ((n : Int)) := by decide

theorem parseInt_toString (m : Int) (h0 : 0 ≤ m) (h1 : m ≤ 100) :
    parseInt? (toString m) = some m := by
  obtain ⟨n, rfl⟩ := Int.eq_ofNat_of_zero_le h0
  exact parseInt_toString_nat n (by exact_mod_cast Int.lt_add_one_iff.mpr h1)
theorem findIndexByRoll_eq_none_iff (l : List Student) (roll : String) :
    findIndexByRoll l roll = none ↔ ∀ st ∈ l, st.roll ≠ roll := by
  induction l with
  | nil => simp [findIndexByRoll]
  | cons st rest ih =>
    simp only [findIndexByRoll]
    by_cases h : st.roll = roll
    · simp [h]
    · rw [if_neg h]
      simp [List.forall_mem_cons, h, ih]

theorem findIndexByRoll_first (l : List Student) (roll : String) (i : Nat) (st0 : Student)
    (hget : l[i]? = some st0) (hroll : st0.roll = roll)
    (hfirst : ∀ j, j < i → ∀ stj, l[j]? = some stj → stj.roll ≠ roll) :
    findIndexByRoll l roll = some i := by
  induction l generalizing i with
  | nil => simp at hget
  | cons st rest ih =>
    cases i with
    | zero =>
      simp only [List.getElem?_cons_zero, Option.some_inj] at hget
      subst hget
      simp [findIndexByRoll, hroll]
    | succ n =>
      have h0 : st.roll ≠ roll := hfirst 0 (Nat.succ_pos n) st (by simp)
      simp only [List.getElem?_cons_succ] at hget
      simp only [findIndexByRoll, if_neg h0]
      rw [ih n hget fun j hj stj hg => hfirst (j + 1) (Nat.succ_lt_succ hj) stj (by simpa using hg)]
      rfl

theorem updateAt_length (l : List Student) (i : Nat) (nm : String) (mk : List Int) :
    (updateAt l i nm mk).length = l.length := by
  induction l generalizing i with
  | nil => rfl
  | cons st rest ih =>
    cases i with
    | zero => rfl
    | succ n => simp [updateAt, ih]

theorem updateAt_getElem_eq (l : List Student) (i : Nat) (nm : String) (mk : List Int) :
    (updateAt l i nm mk)[i]? = (l[i]?).map fun st => { st with name := nm, marks := mk } := by
  induction l generalizing i with
  | nil => simp [updateAt]
  | cons st rest ih =>
    cases i with
    | zero => simp [updateAt]
    | succ n => simp [updateAt, ih]

theorem updateAt_getElem_ne (l : List Student) (i j : Nat) (nm : String) (mk : List Int)
    (h : j ≠ i) : (updateAt l i nm mk)[j]? = l[j]? := by
  induction l generalizing i j with
  | nil => simp [updateAt]
  | cons st rest ih =>
    cases i with
    | zero =>
      cases j with
      | zero => exact absurd rfl h
      | succ m => simp [updateAt]
    | succ n =>
      cases j with
      | zero => simp [updateAt]
      | succ m => simp [updateAt, ih n m (fun he => h (by omega))]

theorem rolls_updateAt (l : List Student) (i : Nat) (nm : String) (mk : List Int) :
    rolls (updateAt l i nm mk) = rolls l := by
  induction l generalizing i with
  | nil => rfl
  | cons st rest ih =>
    cases i with
    | zero => simp [updateAt, rolls]
    | succ n => simpa [updateAt, rolls] using ih n

theorem removeAt_sublist (l : List Student) (i : Nat) : List.Sublist (removeAt l i) l := by
  induction l generalizing i with
  | nil => simp [removeAt]
  | cons st rest ih =>
    cases i with
    | zero => exact (List.sublist_cons_self st rest)
    | succ n => exact List.Sublist.cons₂ st (ih n)
theorem parseRow_ok_iff (i : Nat) (row : List String) :
    (∃ st, parseRow i row = Except.ok st) ↔ rowOk row = true := by
  unfold parseRow rowOk
  by_cases hl : row.length < 8
  · simp [hl]
  · simp only [if_neg hl]
    cases h2 : parseInt? (row.getD 2 "") with
    | none => simp [hl]
    | some m1 =>
      cases h3 : parseInt? (row.getD 3 "") with
      | none => simp [hl]
      | some m2 =>
        cases h4 : parseInt? (row.getD 4 "") with
        | none => simp [hl]
        | some m3 =>
          by_cases hr1 : m1 < 0 ∨ 100 < m1
          · simp [hl, hr1]
          · by_cases hr2 : m2 < 0 ∨ 100 < m2
            · simp [hl, hr1, hr2]
            · by_cases hr3 : m3 < 0 ∨ 100 < m3
              · simp [hl, hr1, hr2, hr3]
              · simp [hl, hr1, hr2, hr3]

theorem parseRow_err (i : Nat) (row : List String) (h : rowOk row = false) :
    ∃ e, parseRow i row = Except.error e := by
  rcases he : parseRow i row with e | st
  · exact ⟨e, rfl⟩
  · have := (parseRow_ok_iff i row).mp ⟨st, he⟩
    simp_all

theorem loadRows_error_of_mem (data : List (List String)) (i : Nat) (row : List String)
    (hmem : row ∈ data) (hbad : rowOk row = false) :
    ∃ e, loadRows data i = Except.error e := by
  induction data generalizing i with
  | nil => simp at hmem
  | cons r rest ih =>
    rcases List.mem_cons.mp hmem with rfl | hmem2
    · obtain ⟨e, he⟩ := parseRow_err i row hbad
      exact ⟨e, by simp [loadRows, he]⟩
    · unfold loadRows
      cases hp : parseRow i r with
      | error e => exact ⟨e, rfl⟩
      | ok st =>
        obtain ⟨e, he⟩ := ih (i + 1) hmem2
        exact ⟨e, by simp [he]⟩

theorem loadRows_ok_forall (data : List (List String)) (i : Nat) (l : List Student)
    (h : loadRows data i = Except.ok l) : ∀ row ∈ data, rowOk row = true := by
  induction data generalizing i l with
  | nil => simp
  | cons r rest ih =>
    intro row hmem
    unfold loadRows at h
    cases hp : parseRow i r with
    | error e =>
      rw [hp] at h
      cases h
    | ok st =>
      rw [hp] at h
      cases hl : loadRows rest (i + 1) with
      | error e =>
        rw [hl] at h
        cases h
      | ok l2 =>
        rcases List.mem_cons.mp hmem with rfl | hmem2
        · exact (parseRow_ok_iff i row).mp ⟨st, hp⟩
        · exact ih (i + 1) l2 hl row hmem2
theorem parseRow_rowOf (i : Nat) (st : Student) (h : ValidRecord st) :
    parseRow i (rowOf st) = Except.ok st := by
  obtain ⟨hr, hrs, hn, hns, hlen, hrange⟩ := h
  obtain ⟨a, b, c, hm⟩ := List.length_eq_three.mp hlen
  have ha := hrange a (by rw [hm]; simp)
  have hb := hrange b (by rw [hm]; simp)
  have hc := hrange c (by rw [hm]; simp)
  have hna : ¬(a < 0 ∨ 100 < a) := by omega
  have hnb : ¬(b < 0 ∨ 100 < b) := by omega
  have hnc : ¬(c < 0 ∨ 100 < c) := by omega
  cases st with
  | mk roll name marks =>
    simp only at hm hrs hns
    subst hm
    simp [parseRow, rowOf, List.getD, parseInt_toString a ha.1 ha.2,
      parseInt_toString b hb.1 hb.2, parseInt_toString c hc.1 hc.2, hna, hnb, hnc, hrs, hns]

theorem loadRows_map_rowOf (l : List Student) (i : Nat) (h : ∀ st ∈ l, ValidRecord st) :
    loadRows (l.map rowOf) i = Except.ok l := by
  induction l generalizing i with
  | nil => rfl
  | cons st rest ih =>
    simp only [List.map_cons, loadRows]
    rw [parseRow_rowOf i st (h st (List.mem_cons_self st rest))]
    rw [ih (i + 1) fun s hs => h s (List.mem_cons_of_mem st hs)]
theorem pickTopper_spec (rest : List Student) (s : Student) :
    (∀ x ∈ s :: rest, x.average ≤ (pickTopper s rest).average)
    ∧ (pickTopper s rest = s
       ∨ ∃ l1 l2, rest = l1 ++ pickTopper s rest :: l2
         ∧ ∀ x ∈ s :: l1, x.average < (pickTopper s rest).average) := by
  induction rest generalizing s with
  | nil =>
    refine ⟨?_, Or.inl rfl⟩
    intro x hx
    simp only [List.mem_singleton] at hx
    subst hx
    exact le_of_eq rfl
  | cons r rest2 ih =>
    have hfold : pickTopper s (r :: rest2)
        = pickTopper (if s.average < r.average then r else s) rest2 := rfl
    by_cases h : s.average < r.average
    · rw [hfold, if_pos h]
      obtain ⟨iha, ihb⟩ := ih r
      constructor
      · intro x hx
        rcases List.mem_cons.mp hx with rfl | hx2
        · exact le_of_lt (lt_of_lt_of_le h (iha r (List.mem_cons_self r rest2)))
        · exact iha x hx2
      · right
        rcases ihb with he | ⟨l1, l2, hsplit, hlt⟩
        · refine ⟨[], rest2, by simp [he], ?_⟩
          intro x hx
          simp only [List.mem_singleton] at hx
          rw [hx, he]
          exact h
        · refine ⟨r :: l1, l2, by rw [List.cons_append, ← hsplit], ?_⟩
          intro x hx
          rcases List.mem_cons.mp hx with rfl | hx2
          · exact lt_of_lt_of_le h (le_of_lt (hlt r (List.mem_cons_self r l1)))
          · exact hlt x hx2
    · rw [hfold, if_neg h]
      obtain ⟨iha, ihb⟩ := ih s
      constructor
      · intro x hx
        rcases List.mem_cons.mp hx with rfl | hx2
        · exact iha x (List.mem_cons_self x rest2)
        · rcases List.mem_cons.mp hx2 with rfl | hx3
          · exact le_trans (le_of_not_lt h) (iha s (List.mem_cons_self s rest2))
          · exact iha x (List.mem_cons_of_mem s hx3)
      · rcases ihb with he | ⟨l1, l2, hsplit, hlt⟩
        · exact Or.inl he
        · right
          refine ⟨r :: l1, l2, by rw [List.cons_append, ← hsplit], ?_⟩
          intro x hx
          rcases List.mem_cons.mp hx with rfl | hx2
          · exact hlt x (List.mem_cons_self x l1)
          · rcases List.mem_cons.mp hx2 with rfl | hx3
            · exact lt_of_le_of_lt (le_of_not_lt h) (hlt s (List.mem_cons_self s l1))
            · exact hlt x (List.mem_cons_of_mem s hx3)
theorem loadRows_first_short (pre post : List (List String)) (row : List String) (i : Nat)
    (hok : ∀ r ∈ pre, rowOk r = true) (hshort : row.length < 8) :
    loadRows (pre ++ row :: post) i
      = Except.error (LoadError.malformedRow (i + pre.length) row) := by
  induction pre generalizing i with
  | nil => simp [loadRows, parseRow, hshort]
  | cons r pre2 ih =>
    obtain ⟨st, hst⟩ := (parseRow_ok_iff i r).mpr (hok r (List.mem_cons_self r pre2))
    simp only [List.cons_append, loadRows, hst, List.append_eq]
    rw [ih (i + 1) fun r2 h2 => hok r2 (List.mem_cons_of_mem r h2)]
    simp
    omega

theorem mem_rolls (l : List Student) (x : String) :
    x ∈ rolls l ↔ ∃ st ∈ l, st.roll = x := by
  simp [rolls]

theorem applyOp_preserves_nodup (l : List Student) (op : Op)
    (h : (rolls l).Nodup) (hop : opKeepsUniqueRolls op) :
    (rolls (applyOp l op)).Nodup := by
  cases op with
  | upsert roll name m1 m2 m3 =>
    simp only [applyOp, add_or_update]
    split_ifs with h1 h2 h3
    · exact h
    · exact h
    · exact h
    · cases hidx : findIndexByRoll l roll with
      | none =>
        have hnone := (findIndexByRoll_eq_none_iff l roll).mp hidx
        simp only [rolls, List.map_append, List.map_cons, List.map_nil]
        rw [List.nodup_append]
        refine ⟨h, List.nodup_singleton roll, ?_⟩
        intro x hx hx2
        simp only [List.mem_singleton] at hx2
        subst hx2
        obtain ⟨st, hst, hst2⟩ := (mem_rolls l x).mp hx
        exact hnone st hst hst2
      | some idx =>
        simpa [rolls_updateAt] using h
  | delete roll =>
    simp only [applyOp, deleteByRoll]
    cases hidx : findIndexByRoll l roll with
    | none => exact h
    | some idx =>
      exact List.Nodup.sublist (List.Sublist.map Student.roll (removeAt_sublist l idx)) h
  | reset => simp [applyOp, rolls]
  | load rows =>
    simp only [applyOp, load_from_csv_app]
    cases hld : load_from_csv rows with
    | error e => exact h
    | ok l2 => exact hop l2 hld

theorem foldl_applyOp_nodup (ops : List Op) (l : List Student)
    (h : (rolls l).Nodup) (hops : ∀ op ∈ ops, opKeepsUniqueRolls op) :
    (rolls (ops.foldl applyOp l)).Nodup := by
  induction ops generalizing l with
  | nil => exact h
  | cons op rest ih =>
    exact ih (applyOp l op)
      (applyOp_preserves_nodup l op h (hops op (List.mem_cons_self op rest)))
      (fun o ho => hops o (List.mem_cons_of_mem op ho))
/-! ## Claims -/

/-- C4: for every record, `grade` is a pure function of `average`; its
bands are inclusive on the lower bound (≥90 → "A+", ≥80 → "A", ≥70 → "B",
≥60 → "C", ≥50 → "D", below 50 → "F"); in particular an average of 90.0
grades "A+" and an average of 89.99 grades "A". -/
theorem C4_grade_bands :
    (∀ s : Student, s.grade = gradeOfAvg s.average)
    ∧ (∀ a : ℚ,
        (gradeOfAvg a = "A+" ↔ 90 ≤ a)
        ∧ (gradeOfAvg a = "A" ↔ 80 ≤ a ∧ a < 90)
        ∧ (gradeOfAvg a = "B" ↔ 70 ≤ a ∧ a < 80)
        ∧ (gradeOfAvg a = "C" ↔ 60 ≤ a ∧ a < 70)
        ∧ (gradeOfAvg a = "D" ↔ 50 ≤ a ∧ a < 60)
        ∧ (gradeOfAvg a = "F" ↔ a < 50))
    ∧ gradeOfAvg 90 = "A+"
    ∧ gradeOfAvg (8999 / 100) = "A" := by
  refine ⟨fun s => rfl, gradeOfAvg_spec, ?_, ?_⟩
  · unfold gradeOfAvg
    norm_num
  · unfold gradeOfAvg
    norm_num

/-- C9: for every record, `average` is the mark total divided by 3 and
rounded to two decimal places when the marks list has its invariant
length 3, and is 0.0 for the defensive empty-marks case. -/
theorem C9_average (s : Student) :
    (s.marks.length = 3 → s.average = round2 ((s.marks.sum : ℚ) / 3))
    ∧ (s.marks = [] → s.average = 0) := by
  constructor
  · intro h
    simpa [Student.total] using average_of_three s h
  · intro h
    simp [Student.average, h]

/-- Witness for C9 at a concrete record with three marks and at the
empty-marks record. -/
theorem C9_average_witness :
    Student.average ⟨"S1", "Ava", [1, 2, 3]⟩ = round2 ((([1, 2, 3] : List Int).sum : ℚ) / 3)
    ∧ Student.average ⟨"S0", "Zed", []⟩ = 0 :=
  ⟨(C9_average ⟨"S1", "Ava", [1, 2, 3]⟩).1 (by decide),
   (C9_average ⟨"S0", "Zed", []⟩).2 rfl⟩

/-- C10: for records with three integer marks in [0, 100], the grade is
determined by the integer total alone, at thresholds obtained by tripling
the average bands; the 2-decimal rounding never crosses a band boundary. -/
theorem C10_grade_by_total (s : Student) (hlen : s.marks.length = 3)
    (hrange : ∀ m ∈ s.marks, 0 ≤ m ∧ m ≤ 100) :
    (s.grade = "A+" ↔ 270 ≤ s.total)
    ∧ (s.grade = "A" ↔ 240 ≤ s.total ∧ s.total < 270)
    ∧ (s.grade = "B" ↔ 210 ≤ s.total ∧ s.total < 240)
    ∧ (s.grade = "C" ↔ 180 ≤ s.total ∧ s.total < 210)
    ∧ (s.grade = "D" ↔ 150 ≤ s.total ∧ s.total < 180)
    ∧ (s.grade = "F" ↔ s.total < 150) := by
  have havg : s.average = round2 ((s.total : ℚ) / 3) := average_of_three s hlen
  have hg : s.grade = gradeOfAvg s.average := rfl
  have e90 := le_round2_div3 s.total 90
  have e80 := le_round2_div3 s.total 80
  have e70 := le_round2_div3 s.total 70
  have e60 := le_round2_div3 s.total 60
  have e50 := le_round2_div3 s.total 50
  push_cast at e90 e80 e70 e60 e50
  rw [← havg] at e90 e80 e70 e60 e50
  have l90 : s.average < 90 ↔ s.total < 270 := by
    rw [← not_le, ← not_le]
    exact not_congr e90
  have l80 : s.average < 80 ↔ s.total < 240 := by
    rw [← not_le, ← not_le]
    exact not_congr e80
  have l70 : s.average < 70 ↔ s.total < 210 := by
    rw [← not_le, ← not_le]
    exact not_congr e70
  have l60 : s.average < 60 ↔ s.total < 180 := by
    rw [← not_le, ← not_le]
    exact not_congr e60
  have l50 : s.average < 50 ↔ s.total < 150 := by
    rw [← not_le, ← not_le]
    exact not_congr e50
  have hband := gradeOfAvg_spec s.average
  refine ⟨?_, ?_, ?_, ?_, ?_, ?_⟩
  · rw [hg, hband.1, e90]
  · rw [hg, hband.2.1, e80, l90]
  · rw [hg, hband.2.2.1, e70, l80]
  · rw [hg, hband.2.2.2.1, e60, l70]
  · rw [hg, hband.2.2.2.2.1, e50, l60]
  · rw [hg, hband.2.2.2.2.2, l50]

/-- Witness for C10 at a concrete record. -/
theorem C10_grade_by_total_witness :
    (⟨"S1", "Ava", [1, 2, 3]⟩ : Student).grade = "A+"
      ↔ 270 ≤ (⟨"S1", "Ava", [1, 2, 3]⟩ : Student).total :=
  (C10_grade_by_total ⟨"S1", "Ava", [1, 2, 3]⟩ (by decide) (by decide)).1
/-- C3: `topper` yields nothing on an empty store; on a non-empty store
it returns a record of maximum average, and every record strictly before
it in insertion order has a strictly smaller average (first maximum in a
left-to-right scan). -/
theorem C3_topper :
    topper [] = none
    ∧ (∀ l : List Student, l ≠ [] → ∃ t, topper l = some t)
    ∧ (∀ (l : List Student) (t : Student), topper l = some t →
        (∀ x ∈ l, x.average ≤ t.average)
        ∧ ∃ l1 l2, l = l1 ++ t :: l2 ∧ ∀ x ∈ l1, x.average < t.average) := by
  refine ⟨rfl, ?_, ?_⟩
  · intro l hl
    cases l with
    | nil => exact absurd rfl hl
    | cons s rest => exact ⟨pickTopper s rest, rfl⟩
  · intro l t ht
    cases l with
    | nil => cases ht
    | cons s rest =>
      simp only [topper, Option.some_inj] at ht
      subst ht
      obtain ⟨ha, hb⟩ := pickTopper_spec rest s
      refine ⟨ha, ?_⟩
      rcases hb with he | ⟨l1, l2, hsplit, hlt⟩
      · refine ⟨[], rest, by simp [he], ?_⟩
        intro x hx
        simp at hx
      · exact ⟨s :: l1, l2, by rw [List.cons_append, ← hsplit], hlt⟩

/-- Witness for C3 on a two-record store whose records tie on the
maximum average: the first one wins. -/
theorem C3_topper_witness :
    (∀ x ∈ [(⟨"S1", "A", [0, 0, 1]⟩ : Student), ⟨"S2", "B", [0, 1, 0]⟩],
        x.average ≤ (⟨"S1", "A", [0, 0, 1]⟩ : Student).average)
    ∧ ∃ l1 l2, [(⟨"S1", "A", [0, 0, 1]⟩ : Student), ⟨"S2", "B", [0, 1, 0]⟩]
          = l1 ++ (⟨"S1", "A", [0, 0, 1]⟩ : Student) :: l2
        ∧ ∀ x ∈ l1, x.average < (⟨"S1", "A", [0, 0, 1]⟩ : Student).average :=
  C3_topper.2.2 [⟨"S1", "A", [0, 0, 1]⟩, ⟨"S2", "B", [0, 1, 0]⟩] ⟨"S1", "A", [0, 0, 1]⟩
    (by with_unfolding_all decide)

/-- C5: with valid inputs, upsert on a fresh roll appends a new record at
the end and reports "Added."; upsert on an existing roll rewrites exactly
that record's name and marks in place (roll and position preserved),
leaves every other record untouched, and reports "Updated.". -/
theorem C5_upsert (l : List Student) (roll name : String) (m1 m2 m3 : Int)
    (hroll : roll ≠ "") (hname : name ≠ "")
    (h1 : 0 ≤ m1 ∧ m1 ≤ 100) (h2 : 0 ≤ m2 ∧ m2 ≤ 100) (h3 : 0 ≤ m3 ∧ m3 ≤ 100) :
    ((∀ st ∈ l, st.roll ≠ roll) →
      add_or_update l roll name m1 m2 m3
        = Except.ok (l ++ [⟨roll, name, [m1, m2, m3]⟩], "Added."))
    ∧ (∀ (i : Nat) (st0 : Student), l[i]? = some st0 → st0.roll = roll →
        (∀ j, j < i → ∀ stj, l[j]? = some stj → stj.roll ≠ roll) →
        ∃ l2, add_or_update l roll name m1 m2 m3 = Except.ok (l2, "Updated.")
          ∧ l2.length = l.length
          ∧ l2[i]? = some ⟨st0.roll, name, [m1, m2, m3]⟩
          ∧ ∀ j, j ≠ i → l2[j]? = l[j]?) := by
  have hn1 : ¬(m1 < 0 ∨ 100 < m1) := by omega
  have hn2 : ¬(m2 < 0 ∨ 100 < m2) := by omega
  have hn3 : ¬(m3 < 0 ∨ 100 < m3) := by omega
  constructor
  · intro habs
    simp only [add_or_update, if_neg hn1, if_neg hn2, if_neg hn3,
      (findIndexByRoll_eq_none_iff l roll).mpr habs]
  · intro i st0 hget hroll0 hfirst
    have hidx := findIndexByRoll_first l roll i st0 hget hroll0 hfirst
    refine ⟨updateAt l i name [m1, m2, m3], ?_,
      updateAt_length l i name [m1, m2, m3], ?_, ?_⟩
    · simp only [add_or_update, if_neg hn1, if_neg hn2, if_neg hn3, hidx]
    · rw [updateAt_getElem_eq, hget]
      rfl
    · intro j hj
      exact updateAt_getElem_ne l i j name [m1, m2, m3] hj

/-- Witness for C5: a fresh roll is appended at the end with the
"Added." outcome. -/
theorem C5_upsert_witness :
    add_or_update [⟨"S1", "Ava", [1, 2, 3]⟩] "S2" "Bo" 4 5 6
      = Except.ok ([(⟨"S1", "Ava", [1, 2, 3]⟩ : Student)] ++ [⟨"S2", "Bo", [4, 5, 6]⟩], "Added.") :=
  (C5_upsert [⟨"S1", "Ava", [1, 2, 3]⟩] "S2" "Bo" 4 5 6 (by decide) (by decide)
    (by decide) (by decide) (by decide)).1 (by decide)

/-- C6: an empty query yields the distinct no-query signal; a non-empty
query yields the records whose roll or name contains the query
case-insensitively, in store order, and an empty hit list is a different
outcome from the no-query signal. -/
theorem C6_search (l : List Student) :
    search l "" = SearchResult.noQuery
    ∧ (∀ q : String, q ≠ "" →
        ∃ res, search l q = SearchResult.hits res
          ∧ List.Sublist res l
          ∧ ∀ st, st ∈ res ↔
              st ∈ l ∧ ((pyLower q).data <:+: (pyLower st.roll).data
                ∨ (pyLower q).data <:+: (pyLower st.name).data))
    ∧ (∀ res, SearchResult.hits res ≠ SearchResult.noQuery) := by
  refine ⟨rfl, ?_, fun res h => by cases h⟩
  intro q hq
  refine ⟨l.filter (fun st =>
      strContains (pyLower st.roll) (pyLower q) || strContains (pyLower st.name) (pyLower q)),
    ?_, List.filter_sublist l, ?_⟩
  · simp [search, hq]
  · intro st
    rw [List.mem_filter]
    simp [strContains]

/-- Witness for C6: a non-empty query over a two-record store returns
exactly the case-insensitive substring matches. -/
theorem C6_search_witness :
    ∃ res, search [(⟨"S1", "Ava", [1, 2, 3]⟩ : Student), ⟨"S2", "Bo", [0, 1, 0]⟩] "aV"
        = SearchResult.hits res
      ∧ List.Sublist res [(⟨"S1", "Ava", [1, 2, 3]⟩ : Student), ⟨"S2", "Bo", [0, 1, 0]⟩]
      ∧ ∀ st, st ∈ res ↔
          st ∈ [(⟨"S1", "Ava", [1, 2, 3]⟩ : Student), ⟨"S2", "Bo", [0, 1, 0]⟩]
          ∧ ((pyLower "aV").data <:+: (pyLower st.roll).data
            ∨ (pyLower "aV").data <:+: (pyLower st.name).data) :=
  (C6_search [⟨"S1", "Ava", [1, 2, 3]⟩, ⟨"S2", "Bo", [0, 1, 0]⟩]).2.1 "aV" (by decide)

theorem escapeQuotes_ne_cr (xs : List Char) (h : ∀ c ∈ xs, c ≠ '\r') :
    ∀ c ∈ escapeQuotes xs, c ≠ '\r' := by
  induction xs with
  | nil => simp [escapeQuotes]
  | cons c rest ih =>
    have hc := h c (List.mem_cons_self c rest)
    have hrest := fun x hx => h x (List.mem_cons_of_mem c hx)
    unfold escapeQuotes
    split_ifs with hq
    · intro x hx
      rcases List.mem_cons.mp hx with rfl | hx2
      · decide
      · rcases List.mem_cons.mp hx2 with rfl | hx3
        · decide
        · exact ih hrest x hx3
    · intro x hx
      rcases List.mem_cons.mp hx with rfl | hx2
      · exact hc
      · exact ih hrest x hx2

theorem csvQuoteField_ne_cr (s : String) (h : ∀ c ∈ s.data, c ≠ '\r') :
    ∀ c ∈ csvQuoteField s, c ≠ '\r' := by
  unfold csvQuoteField
  split_ifs with hq
  · intro c hc
    rcases List.mem_cons.mp hc with rfl | hc2
    · decide
    · rcases List.mem_append.mp hc2 with hc3 | hc3
      · exact escapeQuotes_ne_cr s.data h c hc3
      · simp only [List.mem_singleton] at hc3
        subst hc3
        decide
  · exact h

theorem csvFields_ne_cr (row : List String) (h : ∀ f ∈ row, ∀ c ∈ f.data, c ≠ '\r') :
    ∀ c ∈ csvFields row, c ≠ '\r' := by
  induction row with
  | nil => simp [csvFields]
  | cons f rest ih =>
    have hf := h f (List.mem_cons_self f rest)
    have hrest := fun g hg => h g (List.mem_cons_of_mem f hg)
    unfold csvFields
    cases rest with
    | nil => exact csvQuoteField_ne_cr f hf
    | cons g more =>
      intro c hc
      rcases List.mem_append.mp hc with hc2 | hc2
      · exact csvQuoteField_ne_cr f hf c hc2
      · rcases List.mem_cons.mp hc2 with rfl | hc3
        · decide
        · exact ih hrest c hc3

theorem crToLF_of_ne_cr (xs : List Char) (h : ∀ c ∈ xs, c ≠ '\r') : crToLF xs = xs := by
  unfold crToLF
  induction xs with
  | nil => rfl
  | cons c rest ih =>
    rw [List.map_cons, if_neg (h c (List.mem_cons_self c rest)),
      ih fun x hx => h x (List.mem_cons_of_mem c hx)]

theorem stripCRLF_append_crlf (xs ys : List Char) (h : ∀ c ∈ xs, c ≠ '\r') :
    stripCRLF (xs ++ '\r' :: '\n' :: ys) = xs ++ '\n' :: stripCRLF ys := by
  induction xs with
  | nil => simp [stripCRLF]
  | cons c xs2 ih =>
    have hc := h c (List.mem_cons_self c xs2)
    have hrest := fun x hx => h x (List.mem_cons_of_mem c hx)
    cases xs2 with
    | nil =>
      simp [stripCRLF]
    | cons d xs3 =>
      simp only [List.cons_append]
      rw [stripCRLF.eq_3, if_neg fun hand => hc hand.1]
      simp only [List.cons_append] at ih
      rw [ih hrest]

theorem crToLF_append (a b : List Char) : crToLF (a ++ b) = crToLF a ++ crToLF b :=
  List.map_append _ a b

theorem crToLF_cons (c : Char) (t : List Char) :
    crToLF (c :: t) = (if c = '\r' then '\n' else c) :: crToLF t := rfl

theorem univ_append_crlf (xs ys : List Char) (h : ∀ c ∈ xs, c ≠ '\r') :
    pyUnivNewlines (xs ++ '\r' :: '\n' :: ys) = xs ++ '\n' :: pyUnivNewlines ys := by
  unfold pyUnivNewlines
  rw [stripCRLF_append_crlf xs ys h, crToLF_append, crToLF_cons,
    if_neg (by decide : ¬ ('\n' = '\r')), crToLF_of_ne_cr xs h]

theorem univ_write_rows (rows : List (List String))
    (h : ∀ row ∈ rows, ∀ f ∈ row, ∀ c ∈ f.data, c ≠ '\r') :
    pyUnivNewlines ((rows.map fun row => csvFields row ++ ['\r', '\n']).flatten)
      = (rows.map fun row => csvFields row ++ ['\n']).flatten := by
  induction rows with
  | nil => rfl
  | cons row rest ih =>
    have hrow : ∀ c ∈ csvFields row, c ≠ '\r' :=
      csvFields_ne_cr row (h row (List.mem_cons_self row rest))
    have hrest := fun r hr => h r (List.mem_cons_of_mem row hr)
    simp only [List.map_cons, List.flatten_cons, List.append_assoc, List.cons_append,
      List.nil_append]
    rw [univ_append_crlf _ _ hrow, ih hrest]

theorem scan_unquoted_run (xs : List Char) (row : List String) (field : List Char)
    (rest : List Char) (h : ∀ c ∈ xs, c ≠ ',' ∧ c ≠ '\n') :
    csvScan (CsvState.unquoted row field) (xs ++ rest)
      = csvScan (CsvState.unquoted row (field ++ xs)) rest := by
  induction xs generalizing field with
  | nil => simp
  | cons c xs2 ih =>
    have hc := h c (List.mem_cons_self c xs2)
    have hrest := fun x hx => h x (List.mem_cons_of_mem c hx)
    simp only [List.cons_append]
    rw [csvScan.eq_6, if_neg hc.2, if_neg hc.1, ih (field ++ [c]) hrest,
      List.append_assoc]
    rfl

theorem scan_quoted_run (xs : List Char) (row : List String) (field : List Char)
    (rest : List Char) :
    csvScan (CsvState.quoted row field) (escapeQuotes xs ++ '"' :: rest)
      = csvScan (CsvState.quoted row (field ++ xs)) ('"' :: rest) := by
  induction xs generalizing field with
  | nil => simp [escapeQuotes]
  | cons c xs2 ih =>
    by_cases hq : c = '"'
    · subst hq
      rw [show escapeQuotes ('"' :: xs2) = '"' :: '"' :: escapeQuotes xs2 from by
        simp [escapeQuotes]]
      simp only [List.cons_append]
      rw [csvScan.eq_9, if_pos rfl, if_pos rfl, ih (field ++ ['"']), List.append_assoc]
      rfl
    · rw [show escapeQuotes (c :: xs2) = c :: escapeQuotes xs2 from by
        simp [escapeQuotes, hq]]
      simp only [List.cons_append]
      cases he : escapeQuotes xs2 ++ '"' :: rest with
      | nil => exact absurd he (by simp)
      | cons d t =>
        rw [csvScan.eq_9, if_neg hq, ← he, ih (field ++ [c]), List.append_assoc]
        rfl

theorem scan_close_comma (row : List String) (field : List Char) (rest : List Char) :
    csvScan (CsvState.quoted row field) ('"' :: ',' :: rest)
      = csvScan (CsvState.fieldStart (row ++ [⟨field⟩])) rest := by
  rw [csvScan.eq_9, if_pos rfl, if_neg (by decide : ¬(',' = '"')), if_pos rfl]

theorem scan_close_nl (row : List String) (field : List Char) (rest : List Char) :
    csvScan (CsvState.quoted row field) ('"' :: '\n' :: rest)
      = (row ++ [⟨field⟩]) :: csvScan CsvState.rowStart rest := by
  rw [csvScan.eq_9, if_pos rfl, if_neg (by decide : ¬('\n' = '"')),
    if_neg (by decide : ¬('\n' = ',')), if_pos rfl]

theorem needsQuote_false_plain (f : String) (hq : needsQuote f = false) :
    ∀ c ∈ f.data, c ≠ ',' ∧ c ≠ '"' ∧ c ≠ '\r' ∧ c ≠ '\n' := by
  intro c hc
  have h2 := List.any_eq_false.mp hq c hc
  simp only [Bool.or_eq_true, beq_iff_eq, not_or] at h2
  exact ⟨h2.1.1.1, h2.1.1.2, h2.1.2, h2.2⟩

theorem scan_field_comma (f : String) (row : List String) (rest : List Char) :
    csvScan (CsvState.fieldStart row) (csvQuoteField f ++ ',' :: rest)
      = csvScan (CsvState.fieldStart (row ++ [f])) rest := by
  unfold csvQuoteField
  by_cases hq : needsQuote f
  · rw [if_pos hq]
    simp only [List.cons_append, List.append_assoc, List.singleton_append,
      List.nil_append]
    rw [csvScan.eq_4, if_neg (by decide : ¬('"' = '\n')), if_pos rfl,
      scan_quoted_run f.data row [] (',' :: rest), scan_close_comma]
    rfl
  · rw [if_neg hq]
    have hplain := needsQuote_false_plain f (Bool.not_eq_true _ ▸ eq_false_of_ne_true hq)
    cases hf : f.data with
    | nil =>
      have hfe : f = "" := by
        cases f with
        | mk data => simp only at hf; subst hf; rfl
      subst hfe
      simp only [List.nil_append]
      rw [csvScan.eq_4, if_neg (by decide : ¬(',' = '\n')),
        if_neg (by decide : ¬(',' = '"')), if_pos rfl]
    | cons c cs =>
      have hc := hplain c (by rw [hf]; exact List.mem_cons_self c cs)
      have hcs : ∀ x ∈ cs, x ≠ ',' ∧ x ≠ '\n' := by
        intro x hx
        have := hplain x (by rw [hf]; exact List.mem_cons_of_mem c hx)
        exact ⟨this.1, this.2.2.2⟩
      simp only [List.cons_append]
      rw [csvScan.eq_4, if_neg hc.2.2.2, if_neg hc.2.1, if_neg hc.1,
        scan_unquoted_run cs row [c] (',' :: rest) hcs, csvScan.eq_6,
        if_neg (by decide : ¬(',' = '\n')), if_pos rfl]
      have hfe : f = ⟨c :: cs⟩ := by
        cases f with
        | mk d => simp only at hf; rw [hf]
      rw [hfe]
      rfl

theorem scan_field_nl (f : String) (row : List String) (rest : List Char) :
    csvScan (CsvState.fieldStart row) (csvQuoteField f ++ '\n' :: rest)
      = (row ++ [f]) :: csvScan CsvState.rowStart rest := by
  unfold csvQuoteField
  by_cases hq : needsQuote f
  · rw [if_pos hq]
    simp only [List.cons_append, List.append_assoc, List.singleton_append,
      List.nil_append]
    rw [csvScan.eq_4, if_neg (by decide : ¬('"' = '\n')), if_pos rfl,
      scan_quoted_run f.data row [] ('\n' :: rest), scan_close_nl]
    rfl
  · rw [if_neg hq]
    have hplain := needsQuote_false_plain f (Bool.not_eq_true _ ▸ eq_false_of_ne_true hq)
    cases hf : f.data with
    | nil =>
      have hfe : f = "" := by
        cases f with
        | mk data => simp only at hf; subst hf; rfl
      subst hfe
      simp only [List.nil_append]
      rw [csvScan.eq_4, if_pos rfl]
    | cons c cs =>
      have hc := hplain c (by rw [hf]; exact List.mem_cons_self c cs)
      have hcs : ∀ x ∈ cs, x ≠ ',' ∧ x ≠ '\n' := by
        intro x hx
        have := hplain x (by rw [hf]; exact List.mem_cons_of_mem c hx)
        exact ⟨this.1, this.2.2.2⟩
      simp only [List.cons_append]
      rw [csvScan.eq_4, if_neg hc.2.2.2, if_neg hc.2.1, if_neg hc.1,
        scan_unquoted_run cs row [c] ('\n' :: rest) hcs, csvScan.eq_6, if_pos rfl]
      have hfe : f = ⟨c :: cs⟩ := by
        cases f with
        | mk d => simp only at hf; rw [hf]
      rw [hfe]
      rfl

theorem scan_row_fields (fields : List String) (acc : List String) (rest : List Char)
    (hne : fields ≠ []) :
    csvScan (CsvState.fieldStart acc) (csvFields fields ++ '\n' :: rest)
      = (acc ++ fields) :: csvScan CsvState.rowStart rest := by
  induction fields generalizing acc with
  | nil => exact absurd rfl hne
  | cons f fs ih =>
    cases fs with
    | nil =>
      rw [show csvFields [f] = csvQuoteField f from rfl, scan_field_nl]
    | cons g more =>
      rw [show csvFields (f :: g :: more)
          = csvQuoteField f ++ ',' :: csvFields (g :: more) from rfl]
      simp only [List.append_assoc, List.cons_append]
      rw [scan_field_comma f acc (csvFields (g :: more) ++ '\n' :: rest),
        ih (acc ++ [f]) (by simp)]
      simp

theorem rowStart_eq_fieldStart (c : Char) (rest : List Char) (h : c ≠ '\n') :
    csvScan CsvState.rowStart (c :: rest) = csvScan (CsvState.fieldStart []) (c :: rest) := by
  rw [csvScan.eq_2, csvScan.eq_4, if_neg h, if_neg h]
  by_cases h2 : c = '"'
  · rw [if_pos h2, if_pos h2]
  · rw [if_neg h2, if_neg h2]
    by_cases h3 : c = ','
    · rw [if_pos h3, if_pos h3]
      rfl
    · rw [if_neg h3, if_neg h3]

theorem csvFields_head (f g : String) (more : List String) :
    ∃ c cs, csvFields (f :: g :: more) = c :: cs ∧ c ≠ '\n' := by
  rw [show csvFields (f :: g :: more)
      = csvQuoteField f ++ ',' :: csvFields (g :: more) from rfl]
  unfold csvQuoteField
  by_cases hq : needsQuote f
  · rw [if_pos hq]
    exact ⟨'"', _, rfl, by decide⟩
  · rw [if_neg hq]
    cases hf : f.data with
    | nil => exact ⟨',', _, rfl, by decide⟩
    | cons c cs =>
      have hp := needsQuote_false_plain f (Bool.not_eq_true _ ▸ eq_false_of_ne_true hq) c
        (by rw [hf]; exact List.mem_cons_self c cs)
      exact ⟨c, _, by rw [List.cons_append], hp.2.2.2⟩

theorem scan_rows (rows : List (List String))
    (h : ∀ row ∈ rows, ∃ f g more, row = f :: g :: more) :
    csvScan CsvState.rowStart ((rows.map fun r => csvFields r ++ ['\n']).flatten) = rows := by
  induction rows with
  | nil => rfl
  | cons row rest ih =>
    obtain ⟨f, g, more, hrow⟩ := h row (List.mem_cons_self row rest)
    obtain ⟨c, cs, hhead, hc⟩ := csvFields_head f g more
    simp only [List.map_cons, List.flatten_cons, List.append_assoc, List.cons_append,
      List.nil_append]
    rw [hrow, hhead, List.cons_append, rowStart_eq_fieldStart c _ hc, ← List.cons_append,
      ← hhead, scan_row_fields _ [] _ (by simp),
      ih fun r hr => h r (List.mem_cons_of_mem row hr)]
    simp

theorem digitChar_ne_cr (n : Nat) : Nat.digitChar n ≠ '\r' := by
  by_cases h : n < 16
  · interval_cases n <;> decide
  · have hbig : Nat.digitChar n = '*' := by
      unfold Nat.digitChar
      repeat rw [if_neg (by omega)]
    rw [hbig]
    decide

theorem toDigitsCore_ne_cr (b fuel n : Nat) (ds : List Char) (h : ∀ c ∈ ds, c ≠ '\r') :
    ∀ c ∈ Nat.toDigitsCore b fuel n ds, c ≠ '\r' := by
  induction fuel generalizing n ds with
  | zero =>
    unfold Nat.toDigitsCore
    exact h
  | succ f ih =>
    unfold Nat.toDigitsCore
    dsimp only
    split_ifs
    · intro c hc
      rcases List.mem_cons.mp hc with rfl | hc2
      · exact digitChar_ne_cr _
      · exact h c hc2
    · refine ih (n / b) (Nat.digitChar (n % b) :: ds) ?_
      intro c hc
      rcases List.mem_cons.mp hc with rfl | hc2
      · exact digitChar_ne_cr _
      · exact h c hc2

theorem natRepr_ne_cr (n : Nat) : ∀ c ∈ (Nat.repr n).data, c ≠ '\r' := by
  intro c hc
  unfold Nat.repr Nat.toDigits at hc
  rw [show (Nat.toDigitsCore 10 (n + 1) n []).asString.data
      = Nat.toDigitsCore 10 (n + 1) n [] from rfl] at hc
  exact toDigitsCore_ne_cr 10 (n + 1) n [] (by simp) c hc

theorem toString_int_ne_cr (m : Int) : ∀ c ∈ (toString m).data, c ≠ '\r' := by
  cases m with
  | ofNat n => exact natRepr_ne_cr n
  | negSucc n =>
    intro c hc
    rw [show (toString (Int.negSucc n)).data = '-' :: (Nat.repr (n + 1)).data from rfl] at hc
    rcases List.mem_cons.mp hc with rfl | hc2
    · decide
    · exact natRepr_ne_cr (n + 1) c hc2

theorem ne_cr_append (s t : String) (hs : ∀ c ∈ s.data, c ≠ '\r')
    (ht : ∀ c ∈ t.data, c ≠ '\r') : ∀ c ∈ (s ++ t).data, c ≠ '\r' := by
  intro c hc
  rw [show (s ++ t).data = s.data ++ t.data from rfl] at hc
  rcases List.mem_append.mp hc with h2 | h2
  · exact hs c h2
  · exact ht c h2

theorem formatAvg_ne_cr (q : ℚ) : ∀ c ∈ (formatAvg q).data, c ≠ '\r' := by
  unfold formatAvg
  dsimp only
  split_ifs
  · exact ne_cr_append _ _ (toString_int_ne_cr _) (by decide)
  · exact ne_cr_append _ _ (ne_cr_append _ _ (toString_int_ne_cr _) (by decide))
      (toString_int_ne_cr _)
  · exact ne_cr_append _ _ (ne_cr_append _ _ (toString_int_ne_cr _) (by decide))
      (toString_int_ne_cr _)
  · exact ne_cr_append _ _ (ne_cr_append _ _ (toString_int_ne_cr _) (by decide))
      (toString_int_ne_cr _)

theorem grade_ne_cr (s : Student) : ∀ c ∈ s.grade.data, c ≠ '\r' := by
  unfold Student.grade gradeOfAvg
  split_ifs <;> decide

theorem rowOf_ne_cr (st : Student) (h1 : NoCR st.roll) (h2 : NoCR st.name) :
    ∀ f ∈ rowOf st, ∀ c ∈ f.data, c ≠ '\r' := by
  intro f hf
  unfold rowOf at hf
  simp only [List.mem_cons, List.not_mem_nil, or_false] at hf
  rcases hf with rfl | rfl | rfl | rfl | rfl | rfl | rfl | rfl
  · exact h1
  · exact h2
  · exact toString_int_ne_cr _
  · exact toString_int_ne_cr _
  · exact toString_int_ne_cr _
  · exact toString_int_ne_cr _
  · exact formatAvg_ne_cr _
  · exact grade_ne_cr st

theorem load_rows_of_valid (l : List Student) (hvalid : ∀ st ∈ l, ValidRecord st) :
    load_from_csv (csvHeader :: l.map rowOf) = Except.ok l := by
  simp only [load_from_csv]
  rw [if_neg (by decide : ¬ csvHeader.length < 8)]
  exact loadRows_map_rowOf l 2 hvalid

/-- Counterexample to C1 as stated: the record ("S1", "A\rB", [1,2,3])
satisfies every validity invariant (non-empty roll and name, no
surrounding whitespace, three in-range marks), yet exporting it writes a
literal carriage return inside the quoted name (the file is opened with
`newline=""`) and re-importing reads in universal-newline mode, so the
name comes back as "A\nB": the program does not round-trip this valid
store. -/
theorem C1_roundtrip_cex :
    ValidRecord ⟨"S1", "A\rB", [1, 2, 3]⟩
    ∧ save_to_csv_text [⟨"S1", "A\rB", [1, 2, 3]⟩]
        = some "roll,name,marks1,marks2,marks3,total,average,grade\r\nS1,\"A\rB\",1,2,3,6,2.0,F\r\n"
    ∧ load_from_csv_text "roll,name,marks1,marks2,marks3,total,average,grade\r\nS1,\"A\rB\",1,2,3,6,2.0,F\r\n"
        = Except.ok [⟨"S1", "A\nB", [1, 2, 3]⟩]
    ∧ (⟨"S1", "A\nB", [1, 2, 3]⟩ : Student) ≠ ⟨"S1", "A\rB", [1, 2, 3]⟩ :=
  ⟨by decide, by with_unfolding_all decide, by decide, by decide⟩

/-- C1 amended: for a store of valid records whose rolls and names
contain no carriage return, importing the text produced by export gives
back exactly the same store (same rolls, names and marks, in the same
order), through the real file layer: minimal-quoting `csv.writer` with
`\r\n` terminators on the way out, universal-newline translation and
`csv.reader` on the way back. -/
theorem C1_text_roundtrip (l : List Student)
    (hvalid : ∀ st ∈ l, ValidRecord st)
    (hCR : ∀ st ∈ l, NoCR st.roll ∧ NoCR st.name) :
    ∀ text, save_to_csv_text l = some text → load_from_csv_text text = Except.ok l := by
  intro text hsave
  unfold save_to_csv_text at hsave
  cases hrows : save_to_csv l with
  | none =>
    rw [hrows] at hsave
    cases hsave
  | some rows =>
    rw [hrows] at hsave
    simp only [Option.map_some', Option.some_inj] at hsave
    subst hsave
    unfold save_to_csv at hrows
    by_cases hl : l = []
    · rw [if_pos hl] at hrows
      cases hrows
    · rw [if_neg hl] at hrows
      injection hrows with hrows
      subst hrows
      have hfieldsCR : ∀ row ∈ csvHeader :: l.map rowOf, ∀ f ∈ row, ∀ c ∈ f.data, c ≠ '\r' := by
        intro row hrow
        rcases List.mem_cons.mp hrow with rfl | hrow2
        · intro f hf
          unfold csvHeader at hf
          simp only [List.mem_cons, List.not_mem_nil, or_false] at hf
          rcases hf with rfl | rfl | rfl | rfl | rfl | rfl | rfl | rfl <;> decide
        · obtain ⟨st, hst, rfl⟩ := List.mem_map.mp hrow2
          exact rowOf_ne_cr st (hCR st hst).1 (hCR st hst).2
      have hshape : ∀ row ∈ csvHeader :: l.map rowOf, ∃ f g more, row = f :: g :: more := by
        intro row hrow
        rcases List.mem_cons.mp hrow with rfl | hrow2
        · exact ⟨"roll", "name", _, rfl⟩
        · obtain ⟨st, hst, rfl⟩ := List.mem_map.mp hrow2
          exact ⟨st.roll, st.name, _, rfl⟩
      unfold load_from_csv_text csvParse
      rw [show (⟨pyUnivNewlines (csvWrite (csvHeader :: l.map rowOf)).data⟩ : String).data
          = pyUnivNewlines (csvWrite (csvHeader :: l.map rowOf)).data from rfl]
      rw [show (csvWrite (csvHeader :: l.map rowOf)).data
          = ((csvHeader :: l.map rowOf).map fun row => csvFields row ++ ['\r', '\n']).flatten
          from rfl]
      rw [univ_write_rows _ hfieldsCR, scan_rows _ hshape]
      exact load_rows_of_valid l hvalid

/-- Witness for the amended C1: a concrete one-record store exports to
its exact text and re-imports to itself. -/
theorem C1_text_roundtrip_witness :
    save_to_csv_text [⟨"1", "A", [1, 2, 3]⟩]
        = some "roll,name,marks1,marks2,marks3,total,average,grade\r\n1,A,1,2,3,6,2.0,F\r\n"
    ∧ load_from_csv_text "roll,name,marks1,marks2,marks3,total,average,grade\r\n1,A,1,2,3,6,2.0,F\r\n"
        = Except.ok [⟨"1", "A", [1, 2, 3]⟩] :=
  ⟨by with_unfolding_all decide,
   C1_text_roundtrip [⟨"1", "A", [1, 2, 3]⟩] (by decide) (by decide) _
     (by with_unfolding_all decide)⟩


/-- C2: import is atomic for the live store: if any data row fails
validation the import returns an error and the caller's store is exactly
as before; the store is replaced wholesale only when every data row
parses successfully. -/
theorem C2_import_atomic (students : List Student) (rows : List (List String)) :
    ((∃ row ∈ rows.drop 1, rowOk row = false) →
      ∃ e, load_from_csv rows = Except.error e
        ∧ load_from_csv_app students rows = students)
    ∧ (∀ e, load_from_csv rows = Except.error e → load_from_csv_app students rows = students)
    ∧ (∀ l, load_from_csv rows = Except.ok l →
        load_from_csv_app students rows = l ∧ ∀ row ∈ rows.drop 1, rowOk row = true) := by
  refine ⟨?_, ?_, ?_⟩
  · rintro ⟨row, hmem, hbad⟩
    cases rows with
    | nil => exact ⟨LoadError.badHeader, rfl, rfl⟩
    | cons header data =>
      simp only [List.drop_succ_cons, List.drop_zero] at hmem
      by_cases hh : header.length < 8
      · exact ⟨LoadError.badHeader, by simp [load_from_csv, hh],
          by simp [load_from_csv_app, load_from_csv, hh]⟩
      · obtain ⟨e, he⟩ := loadRows_error_of_mem data 2 row hmem hbad
        exact ⟨e, by simp [load_from_csv, hh, he],
          by simp [load_from_csv_app, load_from_csv, hh, he]⟩
  · intro e he
    unfold load_from_csv_app
    rw [he]
  · intro l hl
    refine ⟨by unfold load_from_csv_app; rw [hl], ?_⟩
    intro row hmem
    cases rows with
    | nil => cases hl
    | cons header data =>
      simp only [List.drop_succ_cons, List.drop_zero] at hmem
      simp only [load_from_csv] at hl
      by_cases hh : header.length < 8
      · rw [if_pos hh] at hl
        cases hl
      · rw [if_neg hh] at hl
        exact loadRows_ok_forall data 2 l hl row hmem

/-- Witness for C2: a malformed import (a data row with only 5 columns)
fails and leaves a populated store unchanged. -/
theorem C2_import_atomic_witness :
    ∃ e, load_from_csv [csvHeader, ["a", "b", "c", "d", "e"]] = Except.error e
      ∧ load_from_csv_app [⟨"S1", "Ava", [1, 2, 3]⟩] [csvHeader, ["a", "b", "c", "d", "e"]]
          = [⟨"S1", "Ava", [1, 2, 3]⟩] :=
  (C2_import_atomic [⟨"S1", "Ava", [1, 2, 3]⟩] [csvHeader, ["a", "b", "c", "d", "e"]]).1
    ⟨["a", "b", "c", "d", "e"], by decide, by decide⟩

/-- Counterexample to C7 as stated: importing a text whose two valid
rows share the roll "S1" yields a store with duplicate rolls, so roll
uniqueness does not survive arbitrary imports. -/
theorem C7_unique_rolls_cex :
    ¬ (rolls (List.foldl applyOp [] [Op.load [csvHeader,
        ["S1", "A", "1", "2", "3", "6", "2.0", "F"],
        ["S1", "B", "4", "5", "6", "15", "5.0", "F"]]])).Nodup := by decide

/-- C7 amended: starting from the empty store, roll uniqueness is
preserved by every sequence of upsert, delete, reset and import
operations whose imported row sets carry pairwise-distinct rolls. -/
theorem C7_unique_rolls (ops : List Op) (hops : ∀ op ∈ ops, opKeepsUniqueRolls op) :
    (rolls (ops.foldl applyOp [])).Nodup :=
  foldl_applyOp_nodup ops [] (by simp [rolls]) hops

/-- Witness for the amended C7 on a concrete operation sequence mixing
upsert, a distinct-roll import and a delete. -/
theorem C7_unique_rolls_witness :
    (rolls (List.foldl applyOp [] [Op.upsert "S1" "Ava" 1 2 3,
      Op.load [csvHeader, ["S2", "B", "1", "2", "3", "6", "2.0", "F"]],
      Op.delete "S2"])).Nodup := by
  refine C7_unique_rolls _ ?_
  intro op hop
  simp only [List.mem_cons, List.not_mem_nil, or_false] at hop
  rcases hop with rfl | rfl | rfl
  · exact trivial
  · intro l hl
    have he : load_from_csv [csvHeader, ["S2", "B", "1", "2", "3", "6", "2.0", "F"]]
        = Except.ok [⟨"S2", "B", [1, 2, 3]⟩] := by decide
    rw [he] at hl
    injection hl with h2
    subst h2
    decide
  · exact trivial

/-- Counterexample to C8 as stated: in this input the second data row is
the first (and only) one with fewer than 8 columns, but the import fails
on the first data row's non-integer mark, with the marks error for row 2
rather than a malformed-row error numbered 3. -/
theorem C8_malformed_row_number_cex :
    load_from_csv [csvHeader, ["r1", "n", "x", "0", "0", "0", "0", "F"], ["a", "b", "c", "d", "e"]]
        = Except.error (LoadError.marksNotInt 2)
    ∧ (["r1", "n", "x", "0", "0", "0", "0", "F"] : List String).length = 8
    ∧ (["a", "b", "c", "d", "e"] : List String).length = 5
    ∧ ∀ row : List String, LoadError.marksNotInt 2 ≠ LoadError.malformedRow 3 row :=
  ⟨by decide, by decide, by decide, fun row h => by cases h⟩

/-- C8 amended: when the k-th data row is the first one with fewer than
8 columns and every earlier data row parses successfully, the import
fails with a malformed-row error carrying the 1-based file row number
k + 1 (the header counts as row 1). -/
theorem C8_malformed_row_number (header : List String) (pre post : List (List String))
    (row : List String) (hh : ¬ header.length < 8)
    (hok : ∀ r ∈ pre, rowOk r = true) (hshort : row.length < 8) :
    load_from_csv (header :: (pre ++ row :: post))
      = Except.error (LoadError.malformedRow (pre.length + 2) row) := by
  simp only [load_from_csv]
  rw [if_neg hh, loadRows_first_short pre post row 2 hok hshort]
  congr 2
  omega

/-- Witness for the amended C8: one valid data row followed by a 5-column
row makes the import fail with a malformed-row error numbered 3. -/
theorem C8_malformed_row_number_witness :
    load_from_csv [csvHeader, ["S1", "A", "1", "2", "3", "6", "2.0", "F"], ["a", "b", "c", "d", "e"]]
      = Except.error (LoadError.malformedRow 3 ["a", "b", "c", "d", "e"]) :=
  C8_malformed_row_number csvHeader [["S1", "A", "1", "2", "3", "6", "2.0", "F"]] []
    ["a", "b", "c", "d", "e"] (by decide) (by decide) (by decide)
